import Mathlib

/-!
Shallow embedding of the transcript phrase splitter
(`splitIntoPhrases`, `formatPhrasesWithSpacing`, `splitTranscriptIntoPhrases`,
`getPhraseStats`).  Strings are modelled as `List Char` (the scanner walks
UTF-16 code units, and every character involved lies in the BMP, so one
`Char` per code unit is exact).  JavaScript values that may reach the public
functions are modelled by `JSVal`; a thrown `TypeError` is modelled by
`Except.error`.
-/

/-- JavaScript `\s` (also the character class trimmed by `String.trim`):
ASCII whitespace, NBSP, Ogham space, the U+2000..U+200A range, line/paragraph
separators, narrow NBSP, medium mathematical space, ideographic space, BOM. -/
def isJsWs (c : Char) : Bool :=
  ([9, 10, 11, 12, 13, 32, 160, 0x1680, 0x2028, 0x2029, 0x202f, 0x205f,
    0x3000, 0xfeff] : List Nat).contains c.toNat
  || (decide (0x2000 ≤ c.toNat) && decide (c.toNat ≤ 0x200a))

/-- JavaScript `String.prototype.trim`: drop whitespace from both ends. -/
def jsTrim (s : List Char) : List Char :=
  (((s.dropWhile isJsWs).reverse).dropWhile isJsWs).reverse

/-- Helper for `collapseWs`: the flag records whether the previous character
was whitespace (i.e. we are inside a run already replaced by one space). -/
def collapseAux : Bool → List Char → List Char
  | _, [] => []
  | prevWs, c :: rest =>
    if isJsWs c then
      if prevWs then collapseAux true rest
      else ' ' :: collapseAux true rest
    else c :: collapseAux false rest

/-- JavaScript `.replace(/\s+/g, ' ')`: each maximal whitespace run becomes
a single space. -/
def collapseWs (s : List Char) : List Char := collapseAux false s

/-- The normalization `text.trim().replace(/\s+/g, ' ')` — the `normalizedText`
of `splitIntoPhrases`. -/
def normalizeText (s : List Char) : List Char := collapseWs (jsTrim s)

/-- The `quoteChars` array: `"`, `'`, U+201C, U+201D, U+2018, U+2019. -/
def isQuoteChar (c : Char) : Bool :=
  ([34, 39, 0x201C, 0x201D, 0x2018, 0x2019] : List Nat).contains c.toNat

/-- Function `getMatchingCloseQuote`: look the character up in `openQuotes` and return
the parallel entry of `closeQuotes`; a character not in `openQuotes`
(`indexOf` is `-1`) is returned unchanged. -/
def getMatchingCloseQuote (c : Char) : Char :=
  if c.toNat = 34 then '"'
  else if c.toNat = 39 then '\''
  else if c.toNat = 0x201C then Char.ofNat 0x201D
  else if c.toNat = 0x2018 then Char.ofNat 0x2019
  else c

/-- Predicate `isSentenceEnd(char, nextChar)`: one of `.` `!` `?` whose successor is
absent, whitespace, or a quote character. -/
def isSentenceEnd (c : Char) (next : Option Char) : Bool :=
  ([46, 33, 63] : List Nat).contains c.toNat &&
  (match next with
   | none => true
   | some n => isJsWs n || isQuoteChar n)

/-- The colon lookahead (at most the next 9 characters, i.e. indices
`i+1 .. min(i+10, len)-1`): a quote before any non-whitespace character. -/
def hasQuoteAhead : List Char → Bool
  | [] => false
  | c :: rest =>
    if isQuoteChar c then true
    else if !(isJsWs c) then false
    else hasQuoteAhead rest

/-- The sentence-split condition on the text after the terminator: the next
non-whitespace character is absent, an uppercase ASCII letter, or a quote
(the source's fourth disjunct `i === length - 1` is subsumed but kept). -/
def splitHere (rest : List Char) : Bool :=
  match rest.find? (fun x => !(isJsWs x)) with
  | none => true
  | some n =>
      ((decide (65 ≤ n.toNat) && decide (n.toNat ≤ 90)) || isQuoteChar n)
      || rest.isEmpty

/-- Function `addPhrase`: push the trimmed phrase unless it trims to nothing. -/
def addPhrase (ps : List (List Char)) (phrase : List Char) : List (List Char) :=
  let trimmed := jsTrim phrase
  if trimmed = [] then ps else ps ++ [trimmed]

/-- The scanner's mutable state: `phrases`, `currentPhrase`, `inQuotes`,
`quoteChar` (JavaScript `null` is `none`), `afterColon`. -/
structure ScanState where
  phrases : List (List Char)
  currentPhrase : List Char
  inQuotes : Bool
  quoteChar : Option Char
  afterColon : Bool
deriving DecidableEq

/-- Flush the accumulated buffer: `addPhrase(currentPhrase)`, reset the
buffer, clear the colon flag (`inQuotes` and `quoteChar` are untouched). -/
def flushState (s : ScanState) : ScanState :=
  { s with phrases := addPhrase s.phrases s.currentPhrase,
           currentPhrase := [],
           afterColon := false }

/-- The colon-detection block: a colon outside quotes followed (through
whitespace, within 9 characters) by a quote sets `afterColon`. -/
def colonStep (s : ScanState) (c : Char) (rest : List Char) : ScanState :=
  if c = ':' ∧ s.inQuotes = false then
    if hasQuoteAhead (rest.take 9) then { s with afterColon := true } else s
  else s

/-- The sentence-ending block: outside quotes, at a sentence terminator
whose context satisfies `splitHere`, flush the buffer. -/
def sentenceStep (s : ScanState) (c : Char) (rest : List Char) : ScanState :=
  if isSentenceEnd c rest.head? = true ∧ s.inQuotes = false then
    if splitHere rest then flushState s else s
  else s

/-- One iteration of the scanner loop on character `c` with `rest` the
characters after it.  The character is appended to the buffer first; the
quote block may open a span, close it (flushing at once when it was
colon-introduced — the source's `continue` skips the later blocks), or fall
through; then the colon and sentence blocks run. -/
def step (s0 : ScanState) (c : Char) (rest : List Char) : ScanState :=
  let s1 : ScanState := { s0 with currentPhrase := s0.currentPhrase ++ [c] }
  if isQuoteChar c = true then
    if s1.inQuotes = false then
      let s2 : ScanState :=
        { s1 with inQuotes := true, quoteChar := some (getMatchingCloseQuote c) }
      let beforeQuote := jsTrim (List.dropLast s2.currentPhrase)
      let s3 : ScanState :=
        if beforeQuote.getLast? = some ':' then { s2 with afterColon := true } else s2
      sentenceStep (colonStep s3 c rest) c rest
    else if s1.quoteChar = some c then
      let s2 : ScanState := { s1 with inQuotes := false }
      if s2.afterColon = true then
        flushState s2
      else
        sentenceStep (colonStep { s2 with quoteChar := none } c rest) c rest
    else
      sentenceStep (colonStep s1 c rest) c rest
  else
    sentenceStep (colonStep s1 c rest) c rest

/-- The `for` loop of `splitIntoPhrases` over the normalized text. -/
def scanLoop : ScanState → List Char → ScanState
  | s, [] => s
  | s, c :: rest => scanLoop (step s c rest) rest

/-- The scanner's initial state. -/
def initState : ScanState := ⟨[], [], false, none, false⟩

/-- The body of `splitIntoPhrases` on the normalized text: run the loop, then
`addPhrase(currentPhrase)` for the remainder. -/
def splitCore (t : List Char) : List (List Char) :=
  let s := scanLoop initState t
  addPhrase s.phrases s.currentPhrase

/-- JavaScript values that may be passed to the exported functions. -/
inductive JSVal where
  | null
  | undef
  | boolean (b : Bool)
  | num (n : Int)
  | str (s : List Char)
deriving DecidableEq

/-- Function `splitIntoPhrases(text)`: non-strings and the empty string (the guard
`!text || typeof text !== 'string'`) give `[]`; otherwise scan the
normalized text. -/
def splitIntoPhrases : JSVal → List (List Char)
  | JSVal.str s => if s = [] then [] else splitCore (normalizeText s)
  | _ => []

/-- Helper for `jsSplitWs`: `some cur` is a token being built (reversed),
`none` means the scan is inside a separator run. -/
def jsSplitWsAux : Option (List Char) → List Char → List (List Char)
  | some cur, [] => [cur.reverse]
  | none, [] => [[]]
  | some cur, c :: rest =>
      if isJsWs c then cur.reverse :: jsSplitWsAux none rest
      else jsSplitWsAux (some (c :: cur)) rest
  | none, c :: rest =>
      if isJsWs c then jsSplitWsAux none rest
      else jsSplitWsAux (some [c]) rest

/-- JavaScript `transcript.split(/\s+/)`: note `"".split(/\s+/) = [""]` and
that leading or trailing whitespace contributes an empty token. -/
def jsSplitWs (s : List Char) : List (List Char) := jsSplitWsAux (some []) s

/-- JavaScript `Math.round(n / d)` for natural `n`, positive `d`: round half toward
positive infinity, i.e. `⌊n/d + 1/2⌋`. -/
def jsRound (n d : Nat) : Nat := (2 * n + d) / (2 * d)

/-- The record returned by `getPhraseStats`. -/
structure PhraseStats where
  phraseCount : Nat
  totalWords : Nat
  avgWordsPerPhrase : Nat
  phrases : List (List Char)
deriving DecidableEq

/-- The one kind of exception the embedded functions can raise. -/
inductive JsError where
  | typeError
deriving DecidableEq

/-- Is the value a JavaScript string? -/
def isStrB : JSVal → Bool
  | JSVal.str _ => true
  | _ => false

/-- Function `getPhraseStats(transcript)`: `splitIntoPhrases` accepts any value, but
`transcript.split(/\s+/)` is a method call on the raw argument and throws
`TypeError` unless it is a string. -/
def getPhraseStats (transcript : JSVal) : Except JsError PhraseStats :=
  match transcript with
  | JSVal.str s =>
      let phrases := splitIntoPhrases (JSVal.str s)
      let totalWords := (jsSplitWs s).length
      let avgWordsPerPhrase :=
        if phrases.length > 0 then jsRound totalWords phrases.length else 0
      Except.ok ⟨phrases.length, totalWords, avgWordsPerPhrase, phrases⟩
  | _ => Except.error JsError.typeError

/-- Characters that survive whitespace erasure. -/
def eraseWs (l : List Char) : List Char := l.filter (fun c => !(isJsWs c))

/-- The non-whitespace content a scanner state carries: flushed phrases in
order, then the pending buffer. -/
def stateContent (s : ScanState) : List Char :=
  eraseWs (s.phrases.flatten ++ s.currentPhrase)

/-- Whether the phrases pushed so far are all nonempty with a non-whitespace
character — the invariant `addPhrase` maintains. -/
def goodPhrases (ps : List (List Char)) : Prop :=
  ∀ p ∈ ps, p ≠ [] ∧ ∃ c ∈ p, isJsWs c = false

theorem eraseWs_append (a b : List Char) :
    eraseWs (a ++ b) = eraseWs a ++ eraseWs b :=
  List.filter_append ..

theorem dropWhile_ws_head {l t : List Char} {c : Char}
    (h : List.dropWhile isJsWs l = c :: t) : isJsWs c = false := by
  induction l with
  | nil => simp at h
  | cons a as ih =>
    by_cases ha : isJsWs a
    · rw [List.dropWhile_cons_of_pos ha] at h
      exact ih h
    · rw [List.dropWhile_cons_of_neg ha] at h
      cases h
      simpa using ha

theorem eraseWs_dropWhile (l : List Char) :
    eraseWs (l.dropWhile isJsWs) = eraseWs l := by
  induction l with
  | nil => rfl
  | cons a as ih =>
    by_cases ha : isJsWs a
    · rw [List.dropWhile_cons_of_pos ha, ih]
      simp [eraseWs, ha]
    · rw [List.dropWhile_cons_of_neg ha]

theorem eraseWs_reverse (l : List Char) :
    eraseWs l.reverse = (eraseWs l).reverse := by
  induction l with
  | nil => rfl
  | cons a as ih =>
    simp only [List.reverse_cons, eraseWs, List.filter_append, List.filter_cons]
    by_cases ha : isJsWs a <;>
      simp only [eraseWs] at ih <;> simp [ha, ih]

theorem eraseWs_jsTrim (l : List Char) : eraseWs (jsTrim l) = eraseWs l := by
  unfold jsTrim
  rw [eraseWs_reverse, eraseWs_dropWhile, eraseWs_reverse, eraseWs_dropWhile,
    List.reverse_reverse]

theorem addPhrase_flatten (ps : List (List Char)) (q : List Char) :
    eraseWs ((addPhrase ps q).flatten) = eraseWs ps.flatten ++ eraseWs q := by
  unfold addPhrase
  by_cases h : jsTrim q = []
  · have hq : eraseWs q = [] := by rw [← eraseWs_jsTrim, h]; rfl
    simp [h, hq]
  · rw [if_neg h, List.flatten_append, List.flatten_cons, List.flatten_nil,
      List.append_nil, eraseWs_append, eraseWs_jsTrim]

theorem jsTrim_has_content {q : List Char} (h : jsTrim q ≠ []) :
    ∃ c ∈ jsTrim q, isJsWs c = false := by
  unfold jsTrim at h ⊢
  cases hd : List.dropWhile isJsWs (List.dropWhile isJsWs q).reverse with
  | nil => rw [hd] at h; simp at h
  | cons c t =>
    refine ⟨c, ?_, dropWhile_ws_head hd⟩
    simp

theorem addPhrase_good {ps : List (List Char)} (q : List Char)
    (h : goodPhrases ps) : goodPhrases (addPhrase ps q) := by
  unfold addPhrase
  by_cases ht : jsTrim q = []
  · simpa [ht] using h
  · rw [if_neg ht]
    intro p hp
    simp only [List.mem_append, List.mem_singleton] at hp
    rcases hp with hp | rfl
    · exact h p hp
    · exact ⟨ht, jsTrim_has_content ht⟩

theorem colonStep_cases (s : ScanState) (c : Char) (rest : List Char) :
    colonStep s c rest = s ∨ colonStep s c rest = { s with afterColon := true } := by
  unfold colonStep
  split
  · split
    · right; rfl
    · left; rfl
  · left; rfl

theorem sentenceStep_cases (s : ScanState) (c : Char) (rest : List Char) :
    sentenceStep s c rest = s ∨ sentenceStep s c rest = flushState s := by
  unfold sentenceStep
  split
  · split
    · right; rfl
    · left; rfl
  · left; rfl

/-- After the colon and sentence blocks, the phrase data either is untouched
or has been flushed. -/
theorem tailSteps_main (u : ScanState) (c : Char) (rest : List Char) :
    ((sentenceStep (colonStep u c rest) c rest).phrases = u.phrases ∧
     (sentenceStep (colonStep u c rest) c rest).currentPhrase = u.currentPhrase) ∨
    ((sentenceStep (colonStep u c rest) c rest).phrases
        = addPhrase u.phrases u.currentPhrase ∧
     (sentenceStep (colonStep u c rest) c rest).currentPhrase = []) := by
  rcases colonStep_cases u c rest with hc | hc <;>
    rcases sentenceStep_cases (colonStep u c rest) c rest with hs | hs <;>
      rw [hs, hc] <;> simp [flushState]

/-- One scanner step either extends the buffer by the character read, or
flushes the extended buffer as a phrase. -/
theorem step_main (s : ScanState) (c : Char) (rest : List Char) :
    ((step s c rest).phrases = s.phrases ∧
     (step s c rest).currentPhrase = s.currentPhrase ++ [c]) ∨
    ((step s c rest).phrases = addPhrase s.phrases (s.currentPhrase ++ [c]) ∧
     (step s c rest).currentPhrase = []) := by
  unfold step
  dsimp only
  split
  · split
    · split
      · exact tailSteps_main _ c rest
      · exact tailSteps_main _ c rest
    · split
      · split
        · right
          simp [flushState]
        · exact tailSteps_main _ c rest
      · exact tailSteps_main _ c rest
  · exact tailSteps_main _ c rest

theorem stateContent_step (s : ScanState) (c : Char) (rest : List Char) :
    stateContent (step s c rest) = stateContent s ++ eraseWs [c] := by
  rcases step_main s c rest with ⟨h1, h2⟩ | ⟨h1, h2⟩ <;>
    unfold stateContent <;> rw [h1, h2]
  · rw [← List.append_assoc, eraseWs_append]
  · rw [List.append_nil, addPhrase_flatten, eraseWs_append, eraseWs_append,
      List.append_assoc]

theorem stateContent_scanLoop (l : List Char) :
    ∀ s : ScanState, stateContent (scanLoop s l) = stateContent s ++ eraseWs l := by
  induction l with
  | nil => intro s; simp [scanLoop, eraseWs]
  | cons c rest ih =>
    intro s
    show stateContent (scanLoop (step s c rest) rest) = _
    rw [ih, stateContent_step, List.append_assoc, ← eraseWs_append]
    rfl

theorem scanLoop_good (l : List Char) :
    ∀ s : ScanState, goodPhrases s.phrases → goodPhrases (scanLoop s l).phrases := by
  induction l with
  | nil => intro s h; exact h
  | cons c rest ih =>
    intro s h
    show goodPhrases (scanLoop (step s c rest) rest).phrases
    apply ih
    rcases step_main s c rest with ⟨h1, _⟩ | ⟨h1, _⟩ <;> rw [h1]
    · exact h
    · exact addPhrase_good _ h

/-- Inside a quoted span whose closing character is not the one read, a step
only appends the character: every flag survives and nothing is flushed. -/
theorem step_inQuotes_other (s : ScanState) (c : Char) (rest : List Char)
    (q : Char) (hin : s.inQuotes = true) (hq : s.quoteChar = some q)
    (hne : c ≠ q) :
    step s c rest = { s with currentPhrase := s.currentPhrase ++ [c] } := by
  unfold step colonStep sentenceStep
  dsimp only
  simp [hin, hq, Ne.symm hne]

/-- While the scanner is inside a quoted span and the matching close quote
never occurs in the remaining text, the whole remainder is appended to the
buffer and the state is otherwise unchanged. -/
theorem scanLoop_stuck (q : Char) (l : List Char) :
    ∀ s : ScanState, s.inQuotes = true → s.quoteChar = some q →
      (∀ c ∈ l, c ≠ q) →
      scanLoop s l = { s with currentPhrase := s.currentPhrase ++ l } := by
  induction l with
  | nil => intro s _ _ _; simp [scanLoop]
  | cons c rest ih =>
    intro s hin hq habs
    show scanLoop (step s c rest) rest = _
    rw [step_inQuotes_other s c rest q hin hq (habs c (List.mem_cons_self c rest))]
    rw [ih { s with currentPhrase := s.currentPhrase ++ [c] } hin hq
      (fun x hx => habs x (List.mem_cons_of_mem c hx))]
    simp

theorem colonStep_flags (s : ScanState) (c : Char) (rest : List Char) :
    (colonStep s c rest).inQuotes = s.inQuotes ∧
    (colonStep s c rest).quoteChar = s.quoteChar := by
  rcases colonStep_cases s c rest with h | h <;> rw [h] <;> exact ⟨rfl, rfl⟩

theorem sentenceStep_flags (s : ScanState) (c : Char) (rest : List Char) :
    (sentenceStep s c rest).inQuotes = s.inQuotes ∧
    (sentenceStep s c rest).quoteChar = s.quoteChar := by
  rcases sentenceStep_cases s c rest with h | h <;> rw [h] <;> exact ⟨rfl, rfl⟩

/-- Reading a quote character outside any quoted span opens a span: the state
leaves the step with `inQuotes` set and `quoteChar` the matching closer. -/
theorem step_open_quote (s : ScanState) (c : Char) (rest : List Char)
    (hin : s.inQuotes = false) (hc : isQuoteChar c = true) :
    (step s c rest).inQuotes = true ∧
    (step s c rest).quoteChar = some (getMatchingCloseQuote c) := by
  unfold step
  dsimp only
  rw [if_pos hc, if_pos hin]
  split <;>
    simp [sentenceStep_flags, (colonStep_flags _ c rest).1, (colonStep_flags _ c rest).2]

/-- Claim C1 (amended): for every null, undefined, or non-string input,
`getPhraseStats` raises a `TypeError` instead of completing normally, because
`transcript.split(/\s+/)` is invoked on the raw argument; only string inputs
complete normally. -/
theorem getPhraseStats_nonstring_raises (v : JSVal) (h : isStrB v = false) :
    getPhraseStats v = Except.error JsError.typeError := by
  cases v with
  | str s => simp [isStrB] at h
  | null => rfl
  | undef => rfl
  | boolean b => rfl
  | num n => rfl

/-- Witness for C1: `getPhraseStats(null)` raises a `TypeError`. -/
theorem getPhraseStats_nonstring_raises_witness :
    getPhraseStats JSVal.null = Except.error JsError.typeError :=
  getPhraseStats_nonstring_raises JSVal.null rfl

/-- Counterexample to C1 as stated: `getPhraseStats(null)` does not complete
normally — it yields the `TypeError` and no `ok` result at all. -/
theorem getPhraseStats_null_counterexample :
    getPhraseStats JSVal.null = Except.error JsError.typeError ∧
    ∀ st : PhraseStats, getPhraseStats JSVal.null ≠ Except.ok st :=
  ⟨rfl, fun _ h => Except.noConfusion h⟩

/-- Claim C2: a quoted span whose opening quote follows a colon is flushed,
lead-in clause included, as a single phrase when the quote closes. -/
theorem colon_quote_flushed_as_one_phrase :
    splitIntoPhrases (JSVal.str ("He said: \"Hello there.\" Then he left.").toList) =
      [("He said: \"Hello there.\"").toList, ("Then he left.").toList] := by
  rfl

/-- Claim C3: a period followed by whitespace and an uppercase letter always
splits — there is no abbreviation dictionary, so `"Dr. Smith arrived."`
becomes two phrases. -/
theorem abbreviation_period_splits :
    splitIntoPhrases (JSVal.str ("Dr. Smith arrived.").toList) =
      [("Dr.").toList, ("Smith arrived.").toList] := by
  rfl

/-- Claim C4: concatenating the returned phrases in order reproduces the
whitespace-normalized input up to whitespace: erasing whitespace from both
gives exactly the same character sequence; no character is invented or
dropped. -/
theorem phrases_concat_preserves_nonspace (s : List Char) :
    eraseWs ((splitIntoPhrases (JSVal.str s)).flatten) =
      eraseWs (normalizeText s) := by
  by_cases h : s = []
  · subst h; rfl
  · have hsp : splitIntoPhrases (JSVal.str s)
        = addPhrase (scanLoop initState (normalizeText s)).phrases
            (scanLoop initState (normalizeText s)).currentPhrase := by
      show (if s = [] then [] else splitCore (normalizeText s)) = _
      rw [if_neg h]
      rfl
    rw [hsp, addPhrase_flatten]
    have h2 := stateContent_scanLoop (normalizeText s) initState
    unfold stateContent at h2
    rw [eraseWs_append] at h2
    rw [h2]
    rfl

/-- Claim C5: once a quote opens and its matching close character never
occurs in the remaining text, the scanner stays inside quotes, no split
fires, and the whole remainder rides in the buffer; in particular the
example with a trailing unterminated quote is one single phrase. -/
theorem unterminated_quote_single_trailing_phrase (s : ScanState)
    (rest : List Char) (q : Char) (hin : s.inQuotes = true)
    (hq : s.quoteChar = some q) (habs : ∀ c ∈ rest, c ≠ q) :
    scanLoop s rest = { s with currentPhrase := s.currentPhrase ++ rest } ∧
    splitIntoPhrases (JSVal.str ("She whispered \"I am not sure").toList) =
      [("She whispered \"I am not sure").toList] :=
  ⟨scanLoop_stuck q rest s hin hq habs, by rfl⟩

/-- Witness for C5 at the state reached right after the quote opens in
`'She whispered "I am not sure'`. -/
theorem unterminated_quote_single_trailing_phrase_witness :
    scanLoop (ScanState.mk [] (("She whispered \"").toList) true (some '"') false)
        (("I am not sure").toList) =
      { ScanState.mk [] (("She whispered \"").toList) true (some '"') false with
          currentPhrase := ("She whispered \"").toList ++ ("I am not sure").toList } ∧
    splitIntoPhrases (JSVal.str ("She whispered \"I am not sure").toList) =
      [("She whispered \"I am not sure").toList] :=
  unterminated_quote_single_trailing_phrase _ _ '"' rfl rfl (by decide)

/-- Claim C6: every element of `splitIntoPhrases` is trimmed nonempty, hence
neither empty nor whitespace-only. -/
theorem phrases_nonempty_not_whitespace (v : JSVal) (p : List Char)
    (hp : p ∈ splitIntoPhrases v) : p ≠ [] ∧ ∃ c ∈ p, isJsWs c = false := by
  cases v with
  | str s =>
    by_cases h : s = []
    · subst h
      exact absurd hp (List.not_mem_nil p)
    · have hsp : splitIntoPhrases (JSVal.str s)
          = addPhrase (scanLoop initState (normalizeText s)).phrases
              (scanLoop initState (normalizeText s)).currentPhrase := by
        show (if s = [] then [] else splitCore (normalizeText s)) = _
        rw [if_neg h]
        rfl
      rw [hsp] at hp
      exact (addPhrase_good _ (scanLoop_good _ initState
        (fun x hx => absurd hx (List.not_mem_nil x)))) p hp
  | null => exact absurd hp (List.not_mem_nil p)
  | undef => exact absurd hp (List.not_mem_nil p)
  | boolean b => exact absurd hp (List.not_mem_nil p)
  | num n => exact absurd hp (List.not_mem_nil p)

/-- Witness for C6 on the input `"Hi."`, whose only phrase is `"Hi."`. -/
theorem phrases_nonempty_not_whitespace_witness :
    ("Hi.").toList ≠ [] ∧ ∃ c ∈ ("Hi.").toList, isJsWs c = false :=
  phrases_nonempty_not_whitespace (JSVal.str (("Hi.").toList))
    (("Hi.").toList) (by decide)

/-- Claim C7: non-strings and strings that are empty or whitespace-only after
trimming give the empty phrase list, with no error; in particular `""`,
`null` and `42` all give `[]`. -/
theorem splitIntoPhrases_invalid_input_empty (v : JSVal) (s : List Char)
    (hv : isStrB v = false) (hs : jsTrim s = []) :
    splitIntoPhrases v = [] ∧ splitIntoPhrases (JSVal.str s) = [] ∧
    splitIntoPhrases (JSVal.str []) = [] ∧ splitIntoPhrases JSVal.null = [] ∧
    splitIntoPhrases (JSVal.num 42) = [] := by
  refine ⟨?_, ?_, rfl, rfl, rfl⟩
  · cases v with
    | str t => simp [isStrB] at hv
    | null => rfl
    | undef => rfl
    | boolean b => rfl
    | num n => rfl
  · by_cases h : s = []
    · subst h; rfl
    · have hn : normalizeText s = [] := by unfold normalizeText; rw [hs]; rfl
      show (if s = [] then [] else splitCore (normalizeText s)) = []
      rw [if_neg h, hn]
      rfl

/-- Witness for C7 at `null` and the whitespace-only string `" "`. -/
theorem splitIntoPhrases_invalid_input_empty_witness :
    splitIntoPhrases JSVal.null = [] ∧
    splitIntoPhrases (JSVal.str ((" ").toList)) = [] ∧
    splitIntoPhrases (JSVal.str []) = [] ∧ splitIntoPhrases JSVal.null = [] ∧
    splitIntoPhrases (JSVal.num 42) = [] :=
  splitIntoPhrases_invalid_input_empty JSVal.null ((" ").toList) rfl (by decide)

/-- Claim C8: `getPhraseStats("One two three. Four five.")` reports 2 phrases,
5 words, and an average of `round(5/2) = 3` words per phrase under JavaScript
`Math.round` (half up). -/
theorem getPhraseStats_two_phrase_example :
    getPhraseStats (JSVal.str (("One two three. Four five.").toList)) =
      Except.ok (PhraseStats.mk 2 5 3
        [("One two three.").toList, ("Four five.").toList]) ∧
    jsRound 5 2 = 3 :=
  ⟨by rfl, by rfl⟩

/-- Claim C9: an apostrophe outside quotes opens a span whose expected closer
is another apostrophe, and with none following, sentence-boundary splits stay
suppressed: `"It's fine. He left."` comes back as one phrase. -/
theorem apostrophe_opens_quote_span (s : ScanState) (rest : List Char)
    (hin : s.inQuotes = false) :
    (step s '\'' rest).inQuotes = true ∧
    (step s '\'' rest).quoteChar = some '\'' ∧
    splitIntoPhrases (JSVal.str (("It's fine. He left.").toList)) =
      [("It's fine. He left.").toList] := by
  have h := step_open_quote s '\'' rest hin (by rfl)
  exact ⟨h.1, h.2, by rfl⟩

/-- Witness for C9 at the initial scanner state. -/
theorem apostrophe_opens_quote_span_witness :
    (step initState '\'' []).inQuotes = true ∧
    (step initState '\'' []).quoteChar = some '\'' ∧
    splitIntoPhrases (JSVal.str (("It's fine. He left.").toList)) =
      [("It's fine. He left.").toList] :=
  apostrophe_opens_quote_span initState [] rfl

/-- Claim C10: `getPhraseStats("")` returns zero phrases and an average of
zero, but `totalWords` is `1`, because splitting the empty string on `/\s+/`
yields one empty token. -/
theorem getPhraseStats_empty_string :
    getPhraseStats (JSVal.str []) = Except.ok (PhraseStats.mk 0 1 0 []) := by
  rfl
